import Mathlib

/-!
Verification of the BiddingWorks auction scraper (src/main.py).

The program is embedded shallowly:

* Strings are lists of characters; timestamps are integers counting seconds
  on one absolute time line, so adding a `timedelta(minutes, hours, days)`
  is adding `60 * mins + 3600 * hours + 86400 * days` seconds.
* `re.findall(r"(\d+)d", s)[0]` is embedded by `findNum 'd' s`: the leftmost
  maximal digit run that is immediately followed by the marker character,
  returning `none` when the pattern never matches (Python raises an
  `IndexError` on the empty findall result, which propagates; fallible code
  is embedded with `Option`/`Except`).
* The pandas calls are embedded by their documented contracts: `df.apply`
  row by row (`addEndDates`), and `df.sort_values` on the `auction_end_date`
  column by the relation `pandasSortValues` (the output is an ascending
  permutation of the input; the default `kind="quicksort"` promises
  nothing more, in particular not stability).
* The tenacity decorator `retry(stop=stop_after_delay(2) | stop_after_attempt(3))`
  is embedded by `retryCall`: attempt outcomes and the elapsed clock are
  inputs, the stop predicate is checked after every failed attempt.
* The SendGrid client is embedded by the outcome of its `send` call; a
  raised Python exception is a `PyException`, whose `message` field records
  whether the exception object has a `message` attribute (in Python 3 the
  built-in exceptions and the HTTP client exceptions have none).
-/

/-- Value of a digit character: `c.toNat - 48`. -/
def digitVal (c : Char) : Nat := c.toNat - 48

/-- Accumulate a run of digit characters onto `a`, most significant first:
the integer value Python gets from `int` on the matched group. -/
def valAcc : Nat → List Char → Nat
  | a, [] => a
  | a, c :: cs => valAcc (a * 10 + digitVal c) cs

/-- Scanner for the leftmost match of the pattern digits-then-marker.
`cur = some n` means the characters read so far end in a maximal digit run
of value `n`; a non-digit character other than the marker resets the run.
This is exactly which substring `re.findall(r"(\d+)X", s)[0]` captures:
the first maximal digit run immediately followed by the marker `X`. -/
def findNumAux (marker : Char) : Option Nat → List Char → Option Nat
  | _, [] => none
  | cur, c :: cs =>
    if c.isDigit then
      findNumAux marker (some (cur.getD 0 * 10 + digitVal c)) cs
    else if c = marker then
      match cur with
      | some n => some n
      | none => findNumAux marker none cs
    else
      findNumAux marker none cs

/-- First match of `(\d+)marker` in `s`, as `re.findall(...)[0]` returns it;
`none` when the pattern does not match (Python raises `IndexError`). -/
def findNum (marker : Char) (s : List Char) : Option Nat :=
  findNumAux marker none s

/-- src/main.py lines 137-148, `get_auction_end_date`: parse the days, hours
and minutes tokens out of the countdown string and add them to the current
time.  `none` embeds the `IndexError` raised when a token is missing. -/
def get_auction_end_date (item_auction_time : List Char) (current_time : Int) : Option Int :=
  match findNum 'd' item_auction_time, findNum 'h' item_auction_time,
      findNum 'm' item_auction_time with
  | some days, some hours, some mins =>
      some (current_time + 86400 * (days : Int) + 3600 * (hours : Int) + 60 * (mins : Int))
  | _, _, _ => none

/-- A well-formed time-remaining string: one digit token each for days,
hours and minutes, in the shape used by the site. -/
def rawString (ds hs ms : List Char) : List Char :=
  ds ++ 'd' :: ' ' :: (hs ++ 'h' :: ' ' :: (ms ++ ['m']))

/-- Calendar timestamp in the configured local time zone, to the precision
the Run Gate consults: `strftime("%m/%d/%Y")` reads month, day and year,
and the trigger check reads the hour. -/
structure PyDateTime where
  year : Nat
  month : Nat
  day : Nat
  hour : Nat
  minute : Nat
deriving DecidableEq

/-- src/main.py line 21: the trigger hours. -/
def HOURS_TO_RUN : List Nat := [9, 12, 21]

/-- What `strftime("%m/%d/%Y")` determines: the format is injective on
valid components, so two timestamps format equal exactly when month, day
and year agree. -/
def dateKey (d : PyDateTime) : Nat × Nat × Nat := (d.month, d.day, d.year)

/-- src/main.py lines 172-189, `check_run_program`.  `prior` is the parsed
`auction_end_date` column of `latest_output.csv` when that file exists
(`pd.read_csv` and `pd.to_datetime` are the collaborators producing it);
`.unique()` is `dedup`.  The Python function returns `True` from the loop
and otherwise falls off the end, returning `None`; the annotation `-> bool`
and the only call site (`if not check_run_program()`) read that as false,
so the embedding returns `false` there. -/
def check_run_program (prior : Option (List PyDateTime)) (now : PyDateTime) : Bool :=
  match prior with
  | none => true
  | some ends =>
      ends.dedup.any fun e =>
        decide (dateKey e = dateKey now) && decide (now.hour ∈ HOURS_TO_RUN)

/-- One scraped listing row, src/main.py lines 88-98: the seven columns in
the order `write_to_csv_html` names them (lines 111-119). -/
structure ScrapedRow where
  loc_name : List Char
  item_name : List Char
  item_image : List Char
  item_current_bid : List Char
  item_auction_time : List Char
  item_link : List Char
  scraped_at_local : Int
deriving DecidableEq

/-- The `df.apply` step of `write_to_csv_html` (src/main.py lines 122-124):
derive `auction_end_date` for every row, in order; a parse failure on any
row aborts the write (the exception propagates out of `apply`). -/
def addEndDates : List ScrapedRow → Option (List (ScrapedRow × Int))
  | [] => some []
  | r :: rs =>
    (get_auction_end_date r.item_auction_time r.scraped_at_local).bind fun e =>
      (addEndDates rs).bind fun ws => some ((r, e) :: ws)

/-- The merge loop of `main` (src/main.py lines 196-201): per-location item
lists are concatenated in order into one flat list. -/
def consolidate (locLists : List (List ScrapedRow)) : List ScrapedRow :=
  locLists.flatten

/-- `df.sort_values("auction_end_date", inplace=True)` (src/main.py line
125) by its documented contract: the output holds exactly the input rows,
ascending in `auction_end_date`.  The default `kind="quicksort"` is
documented as not stable, so nothing more is promised. -/
def pandasSortValues (input output : List (ScrapedRow × Int)) : Prop :=
  output.Perm input ∧ List.Sorted (fun a b => a.2 ≤ b.2) output

instance (input output : List (ScrapedRow × Int)) :
    Decidable (pandasSortValues input output) :=
  inferInstanceAs (Decidable (_ ∧ _))

/-- A concrete row whose countdown parses to zero. -/
def rowA : ScrapedRow :=
  { loc_name := ['L'], item_name := ['a'], item_image := [], item_current_bid := [],
    item_auction_time := ['0', 'd', ' ', '0', 'h', ' ', '0', 'm'],
    item_link := ['1'], scraped_at_local := 0 }

/-- A second concrete row tying with `rowA` on the end date but differing
in content. -/
def rowB : ScrapedRow :=
  { loc_name := ['L'], item_name := ['b'], item_image := [], item_current_bid := [],
    item_auction_time := ['0', 'd', ' ', '0', 'h', ' ', '0', 'm'],
    item_link := ['2'], scraped_at_local := 0 }

/-- A raised Python exception as the `except` handler sees it: `message`
is the value of the `message` attribute when the exception object has one
(Python 3 built-in exceptions and the HTTP client errors have none). -/
structure PyException where
  message : Option (List Char)
deriving DecidableEq

/-- A line written through `logging`. -/
inductive LogEntry
  | info (msg : List Char)
  | warning (msg : List Char)
deriving DecidableEq

/-- src/main.py lines 151-169, `send_email`, from the `try` block on:
`sendResult` is the outcome of `SendGridAPIClient(...).send(message)`.  On
success an info line is logged; on failure the handler evaluates
`e.message`, which logs a warning when the attribute exists and raises
`AttributeError` otherwise — and that second exception is not caught, so
it propagates out of `send_email`. -/
def send_email (sendResult : Except PyException Unit) : Except PyException (List LogEntry) :=
  match sendResult with
  | Except.ok _ => Except.ok [LogEntry.info (String.toList "Successful Email Sent")]
  | Except.error e =>
    match e.message with
    | some msg => Except.ok [LogEntry.warning msg]
    | none => Except.error { message := none }

/-- The tenacity stop condition `stop_after_delay(2) | stop_after_attempt(3)`
(src/main.py lines 48 and 65), checked after every completed attempt: stop
once 2 seconds have elapsed since the first attempt began OR 3 attempts
have run, whichever triggers first. -/
def tenacityStop (attemptNumber elapsedSeconds : Nat) : Bool :=
  decide (2 ≤ elapsedSeconds) || decide (3 ≤ attemptNumber)

/-- The tenacity retry loop from attempt `k` on: run an attempt; a success
returns at once, a failure re-raises when the stop condition holds and
retries otherwise.  `attempt j` is the outcome of the j-th attempt of the
wrapped body, `elapsedAfter j` the seconds elapsed when that attempt
finishes; the returned number is the attempt that produced the result. -/
def retryFrom {α : Type} (attempt : Nat → Except PyException α)
    (elapsedAfter : Nat → Nat) (k : Nat) : Except PyException α × Nat :=
  match attempt k with
  | Except.ok a => (Except.ok a, k)
  | Except.error e =>
    if h : tenacityStop k (elapsedAfter k) = true then (Except.error e, k)
    else retryFrom attempt elapsedAfter (k + 1)
termination_by 3 - k
decreasing_by
  simp only [tenacityStop, Bool.or_eq_true, decide_eq_true_eq] at h
  omega

/-- One call of a function decorated with
`@retry(stop=(stop_after_delay(2) | stop_after_attempt(3)))`: the retry
loop starting at attempt 1. -/
def retryCall {α : Type} (attempt : Nat → Except PyException α)
    (elapsedAfter : Nat → Nat) : Except PyException α × Nat :=
  retryFrom attempt elapsedAfter 1

/-- src/main.py lines 48-62, `get_location_auctions`: the decorated fetch
of the locations index page; the body (HTTP get plus anchor extraction) is
the abstract attempt function, its value the list of location urls. -/
def get_location_auctions (attempt : Nat → Except PyException (List (List Char)))
    (elapsedAfter : Nat → Nat) : Except PyException (List (List Char)) × Nat :=
  retryCall attempt elapsedAfter

/-- src/main.py lines 65-99, `retrieve_auction_location_items`: the
decorated fetch of one location page; the body is the abstract attempt
function, its value the scraped rows of that page. -/
def retrieve_auction_location_items (attempt : Nat → Except PyException (List ScrapedRow))
    (elapsedAfter : Nat → Nat) : Except PyException (List ScrapedRow) × Nat :=
  retryCall attempt elapsedAfter

/-- The collection loop of `main` (src/main.py lines 196-202) over the
per-location fetch results: the first failure aborts the loop, and
`write_to_csv_html` (line 203) runs only after every fetch succeeded, so a
propagated fetch failure writes no artifact. -/
def collectLoop : List (Except PyException (List ScrapedRow)) → Except PyException (List ScrapedRow)
  | [] => Except.ok []
  | r :: rs =>
    match r with
    | Except.error e => Except.error e
    | Except.ok items =>
      match collectLoop rs with
      | Except.error e => Except.error e
      | Except.ok rest => Except.ok (items ++ rest)

/-- An observable step of the main collection loop. -/
inductive CollectorEvent
  | sleep (seconds : Nat)
  | fetch (url : List Char)
deriving DecidableEq

/-- The loop of `main` (src/main.py lines 197-202) as an event trace:
`sleep(randint(0, 2))` runs before each per-location fetch.  `rands j` is
the j-th draw of `randint(0, 2)`, supplied as an input stream; the library
guarantees each draw lies in 0..2 inclusive. -/
def collectorTrace : List (List Char) → (Nat → Nat) → List CollectorEvent
  | [], _ => []
  | u :: us, rands =>
    CollectorEvent.sleep (rands 0) :: CollectorEvent.fetch u ::
      collectorTrace us (fun j => rands (j + 1))

/-- Stepping the scanner over a digit character. -/
theorem findNumAux_digit (m : Char) (cur : Option Nat) (c : Char) (cs : List Char)
    (h : c.isDigit = true) :
    findNumAux m cur (c :: cs) = findNumAux m (some (cur.getD 0 * 10 + digitVal c)) cs := by
  simp [findNumAux, h]

/-- Stepping the scanner over a non-digit character that is not the marker. -/
theorem findNumAux_skip (m : Char) (cur : Option Nat) (c : Char) (cs : List Char)
    (hd : c.isDigit = false) (hm : c ≠ m) :
    findNumAux m cur (c :: cs) = findNumAux m none cs := by
  cases cur <;> simp [findNumAux, hd, hm]

/-- The marker right after a digit run ends the scan. -/
theorem findNumAux_hit (m : Char) (n : Nat) (cs : List Char) (hd : m.isDigit = false) :
    findNumAux m (some n) (m :: cs) = some n := by
  simp [findNumAux, hd]

/-- Running the scanner over a run of digit characters accumulates them. -/
theorem findNumAux_run (m : Char) :
    ∀ (ds : List Char), (∀ c ∈ ds, c.isDigit = true) →
      ∀ (a : Nat) (rest : List Char),
        findNumAux m (some a) (ds ++ rest) = findNumAux m (some (valAcc a ds)) rest := by
  intro ds
  induction ds with
  | nil => intro _ a rest; rfl
  | cons c cs ih =>
    intro hds a rest
    have hc : c.isDigit = true := hds c (List.mem_cons_self c cs)
    rw [List.cons_append, findNumAux_digit m (some a) c (cs ++ rest) hc]
    simp only [Option.getD_some]
    exact ih (fun x hx => hds x (List.mem_cons_of_mem c hx)) (a * 10 + digitVal c) rest

/-- A nonempty digit run followed by the marker is the first match. -/
theorem findNum_token_hit (m : Char) (ds rest : List Char)
    (hds : ∀ c ∈ ds, c.isDigit = true) (hne : ds ≠ []) (hm : m.isDigit = false) :
    findNumAux m none (ds ++ m :: rest) = some (valAcc 0 ds) := by
  cases ds with
  | nil => exact absurd rfl hne
  | cons c cs =>
    have hc : c.isDigit = true := hds c (List.mem_cons_self c cs)
    rw [List.cons_append, findNumAux_digit m none c (cs ++ m :: rest) hc]
    simp only [Option.getD_none]
    rw [findNumAux_run m cs (fun y hy => hds y (List.mem_cons_of_mem c hy))
      (0 * 10 + digitVal c) (m :: rest)]
    rw [findNumAux_hit m _ rest hm]
    rfl

/-- A digit run followed by a non-marker separator contributes no match. -/
theorem findNum_token_skip (m : Char) (ds : List Char) (x : Char) (rest : List Char)
    (hds : ∀ c ∈ ds, c.isDigit = true) (hx : x.isDigit = false) (hxm : x ≠ m) :
    findNumAux m none (ds ++ x :: rest) = findNumAux m none rest := by
  cases ds with
  | nil => simpa using findNumAux_skip m none x rest hx hxm
  | cons c cs =>
    have hc : c.isDigit = true := hds c (List.mem_cons_self c cs)
    rw [List.cons_append, findNumAux_digit m none c (cs ++ x :: rest) hc]
    simp only [Option.getD_none]
    rw [findNumAux_run m cs (fun y hy => hds y (List.mem_cons_of_mem c hy))
      (0 * 10 + digitVal c) (x :: rest)]
    exact findNumAux_skip m _ x rest hx hxm

/-- The scanner finds nothing in a string that never mentions the marker. -/
theorem findNum_of_not_mem (m : Char) :
    ∀ (s : List Char), (∀ c ∈ s, c ≠ m) → ∀ cur, findNumAux m cur s = none := by
  intro s
  induction s with
  | nil => intro _ cur; rfl
  | cons c cs ih =>
    intro h cur
    by_cases hc : c.isDigit = true
    · rw [findNumAux_digit m cur c cs hc]
      exact ih (fun x hx => h x (by simp [hx])) _
    · have hcm : c ≠ m := h c (by simp)
      rw [findNumAux_skip m cur c cs (by simpa using hc) hcm]
      exact ih (fun x hx => h x (by simp [hx])) _

/-- C1: for every well-formed string `"<d>d <h>h <m>m"` (a nonempty digit
token for each of days, hours, minutes) and every scrape timestamp `t`,
`get_auction_end_date` returns exactly `t` plus `d` days, `h` hours and `m`
minutes.  Timestamps count seconds, so with `t = 36000` standing for
2024-01-01T10:00:00 (seconds into 2024-01-01) the raw string "2d 3h 15m"
yields `220500`, which is 2024-01-03T13:15:00. -/
theorem get_auction_end_date_wellFormed (ds hs ms : List Char) (t : Int)
    (hd : ∀ c ∈ ds, c.isDigit = true) (hh : ∀ c ∈ hs, c.isDigit = true)
    (hm : ∀ c ∈ ms, c.isDigit = true)
    (hd0 : ds ≠ []) (hh0 : hs ≠ []) (hm0 : ms ≠ []) :
    get_auction_end_date (rawString ds hs ms) t =
      some (t + 86400 * (valAcc 0 ds : Int) + 3600 * (valAcc 0 hs : Int) +
        60 * (valAcc 0 ms : Int)) := by
  have hD : findNum 'd' (rawString ds hs ms) = some (valAcc 0 ds) := by
    unfold findNum rawString
    exact findNum_token_hit 'd' ds _ hd hd0 (by decide)
  have hH : findNum 'h' (rawString ds hs ms) = some (valAcc 0 hs) := by
    unfold findNum rawString
    rw [findNum_token_skip 'h' ds 'd' _ hd (by decide) (by decide)]
    rw [findNumAux_skip 'h' none ' ' _ (by decide) (by decide)]
    exact findNum_token_hit 'h' hs _ hh hh0 (by decide)
  have hM : findNum 'm' (rawString ds hs ms) = some (valAcc 0 ms) := by
    unfold findNum rawString
    rw [findNum_token_skip 'm' ds 'd' _ hd (by decide) (by decide)]
    rw [findNumAux_skip 'm' none ' ' _ (by decide) (by decide)]
    rw [findNum_token_skip 'm' hs 'h' _ hh (by decide) (by decide)]
    rw [findNumAux_skip 'm' none ' ' _ (by decide) (by decide)]
    exact findNum_token_hit 'm' ms [] hm hm0 (by decide)
  simp [get_auction_end_date, hD, hH, hM]

/-- Witness for C1 at the concrete example of the spec: raw `"2d 3h 15m"`,
scraped at second 36000 of 2024-01-01 (10:00:00); the derived end is second
220500, which is 13:15:00 on 2024-01-03. -/
theorem get_auction_end_date_wellFormed_w :
    get_auction_end_date ['2', 'd', ' ', '3', 'h', ' ', '1', '5', 'm'] 36000 =
      some 220500 := by
  have h := get_auction_end_date_wellFormed ['2'] ['3'] ['1', '5'] 36000
    (by decide) (by decide) (by decide) (by decide) (by decide) (by decide)
  rw [show rawString ['2'] ['3'] ['1', '5'] = ['2', 'd', ' ', '3', 'h', ' ', '1', '5', 'm']
      from rfl] at h
  rw [h]
  decide

/-- C4: on a string in which one of the three tokens is missing (its pattern
never matches, so Python's `re.findall(...)[0]` raises an `IndexError`),
`get_auction_end_date` produces no value at all instead of substituting
zero; and a string that never mentions a marker character certainly misses
that token. -/
theorem missing_token_fails :
    (∀ (s : List Char) (t : Int),
        (findNum 'd' s = none ∨ findNum 'h' s = none ∨ findNum 'm' s = none) →
        get_auction_end_date s t = none) ∧
    (∀ (m : Char) (s : List Char), (∀ c ∈ s, c ≠ m) → findNum m s = none) := by
  constructor
  · intro s t hmiss
    rcases h1 : findNum 'd' s with _ | d <;>
      rcases h2 : findNum 'h' s with _ | h <;>
        rcases h3 : findNum 'm' s with _ | mv <;>
          simp [get_auction_end_date, h1, h2, h3]
    simp_all
  · intro m s h
    exact findNum_of_not_mem m s h none

/-- C7: whenever `get_auction_end_date` accepts its input, the derived end
timestamp is at or after the scrape timestamp it was computed from: the
three regex groups are natural numbers, so the added offset is nonnegative. -/
theorem end_date_ge_scraped :
    ∀ (s : List Char) (t r : Int), get_auction_end_date s t = some r → t ≤ r := by
  intro s t r h
  unfold get_auction_end_date at h
  rcases h1 : findNum 'd' s with _ | d <;> rw [h1] at h <;>
    rcases h2 : findNum 'h' s with _ | hv <;> rw [h2] at h <;>
      rcases h3 : findNum 'm' s with _ | mv <;> rw [h3] at h <;>
        simp only [Option.some.injEq, reduceCtorEq] at h
  omega

/-- Witness for C7: the concrete record scraped at second 36000 with raw
countdown "2d 3h 15m" ends at second 220500, which is not before 36000. -/
theorem end_date_ge_scraped_w :
    get_auction_end_date ['2', 'd', ' ', '3', 'h', ' ', '1', '5', 'm'] 36000 =
        some 220500 ∧
      (36000 : Int) ≤ 220500 :=
  ⟨by decide, end_date_ge_scraped ['2', 'd', ' ', '3', 'h', ' ', '1', '5', 'm'] 36000 220500
    (by decide)⟩

/-- C10: when each of the three patterns matches somewhere in the string,
`get_auction_end_date` succeeds and uses exactly the first match of each
pattern; in particular the token order and any surrounding text are
irrelevant, so "3h 15m 2d", "2d 3h 15m" and "2d 9d 3h 15m extra" all give
the scrape time plus 2 days, 3 hours and 15 minutes (184500 seconds). -/
theorem first_match_semantics :
    (∀ (s : List Char) (t : Int) (d h mv : Nat),
        findNum 'd' s = some d → findNum 'h' s = some h → findNum 'm' s = some mv →
        get_auction_end_date s t =
          some (t + 86400 * (d : Int) + 3600 * (h : Int) + 60 * (mv : Int))) ∧
    (∀ t : Int,
        get_auction_end_date ['3', 'h', ' ', '1', '5', 'm', ' ', '2', 'd'] t =
            some (t + 184500) ∧
          get_auction_end_date ['2', 'd', ' ', '3', 'h', ' ', '1', '5', 'm'] t =
            some (t + 184500) ∧
          get_auction_end_date
              ['2', 'd', ' ', '9', 'd', ' ', '3', 'h', ' ', '1', '5', 'm',
                ' ', 'e', 'x', 't', 'r', 'a'] t =
            some (t + 184500)) := by
  constructor
  · intro s t d h mv h1 h2 h3
    simp [get_auction_end_date, h1, h2, h3]
  · intro t
    refine ⟨?_, ?_, ?_⟩
    · have h1 : findNum 'd' ['3', 'h', ' ', '1', '5', 'm', ' ', '2', 'd'] = some 2 := by decide
      have h2 : findNum 'h' ['3', 'h', ' ', '1', '5', 'm', ' ', '2', 'd'] = some 3 := by decide
      have h3 : findNum 'm' ['3', 'h', ' ', '1', '5', 'm', ' ', '2', 'd'] = some 15 := by decide
      simp [get_auction_end_date, h1, h2, h3]
      omega
    · have h1 : findNum 'd' ['2', 'd', ' ', '3', 'h', ' ', '1', '5', 'm'] = some 2 := by decide
      have h2 : findNum 'h' ['2', 'd', ' ', '3', 'h', ' ', '1', '5', 'm'] = some 3 := by decide
      have h3 : findNum 'm' ['2', 'd', ' ', '3', 'h', ' ', '1', '5', 'm'] = some 15 := by decide
      simp [get_auction_end_date, h1, h2, h3]
      omega
    · have h1 : findNum 'd'
          ['2', 'd', ' ', '9', 'd', ' ', '3', 'h', ' ', '1', '5', 'm',
            ' ', 'e', 'x', 't', 'r', 'a'] = some 2 := by decide
      have h2 : findNum 'h'
          ['2', 'd', ' ', '9', 'd', ' ', '3', 'h', ' ', '1', '5', 'm',
            ' ', 'e', 'x', 't', 'r', 'a'] = some 3 := by decide
      have h3 : findNum 'm'
          ['2', 'd', ' ', '9', 'd', ' ', '3', 'h', ' ', '1', '5', 'm',
            ' ', 'e', 'x', 't', 'r', 'a'] = some 15 := by decide
      simp [get_auction_end_date, h1, h2, h3]
      omega

/-- C2: with an existing prior artifact, the Run Gate fires exactly when
some stored auction end date falls on the current calendar date and the
current hour is one of the trigger hours 9, 12, 21; in particular a
date-matching artifact makes it return true at hours 9, 12 and 21, and
false at hour 10 even though the dates match. -/
theorem check_run_program_spec :
    (∀ (ends : List PyDateTime) (now : PyDateTime),
        check_run_program (some ends) now = true ↔
          (∃ e ∈ ends, dateKey e = dateKey now) ∧ now.hour ∈ HOURS_TO_RUN) ∧
    (∀ (ends : List PyDateTime) (now : PyDateTime),
        (∃ e ∈ ends, dateKey e = dateKey now) →
          ((now.hour = 9 ∨ now.hour = 12 ∨ now.hour = 21) →
            check_run_program (some ends) now = true) ∧
          (now.hour = 10 → check_run_program (some ends) now = false)) := by
  have hiff : ∀ (ends : List PyDateTime) (now : PyDateTime),
      check_run_program (some ends) now = true ↔
        (∃ e ∈ ends, dateKey e = dateKey now) ∧ now.hour ∈ HOURS_TO_RUN := by
    intro ends now
    simp only [check_run_program, List.any_eq_true, List.mem_dedup, Bool.and_eq_true,
      decide_eq_true_eq]
    constructor
    · rintro ⟨e, he, h1, h2⟩
      exact ⟨⟨e, he, h1⟩, h2⟩
    · rintro ⟨⟨e, he, h1⟩, h2⟩
      exact ⟨e, he, h1, h2⟩
  refine ⟨hiff, ?_⟩
  intro ends now hex
  constructor
  · intro hh
    refine (hiff ends now).mpr ⟨hex, ?_⟩
    rcases hh with h | h | h <;> simp [HOURS_TO_RUN, h]
  · intro hh
    cases hcc : check_run_program (some ends) now
    · rfl
    · have h10 : now.hour ∈ HOURS_TO_RUN := ((hiff ends now).mp hcc).2
      rw [hh] at h10
      simp [HOURS_TO_RUN] at h10

/-- C6: with no prior artifact file, the Run Gate returns true whatever the
current time is (src/main.py lines 177-179). -/
theorem check_run_program_first_run (now : PyDateTime) :
    check_run_program none now = true := rfl

/-- The end-date deriving step keeps every row, in order: projecting the
derived column away recovers the input list. -/
theorem addEndDates_map_fst :
    ∀ (rs : List ScrapedRow) (ws : List (ScrapedRow × Int)),
      addEndDates rs = some ws → ws.map Prod.fst = rs := by
  intro rs
  induction rs with
  | nil =>
    intro ws h
    simp only [addEndDates, Option.some.injEq] at h
    subst h
    rfl
  | cons r rs ih =>
    intro ws h
    simp only [addEndDates, Option.bind_eq_some, Option.some.injEq] at h
    obtain ⟨e, hg, ws', ha, hw⟩ := h
    subst hw
    simp [ih ws' ha]

/-- C3 (amended): merging the per-location lists and deriving the end dates
then sorting them under the pandas sort contract yields one sequence,
ascending in `auction_end_date`, whose length is the sum of the
per-location counts, holding exactly the merged rows (none dropped, none
duplicated). -/
theorem consolidation_sorted_complete (locLists : List (List ScrapedRow))
    (ws out : List (ScrapedRow × Int))
    (hadd : addEndDates (consolidate locLists) = some ws)
    (hsort : pandasSortValues ws out) :
    out.length = (locLists.map List.length).sum ∧
      out.Perm ws ∧
      List.Sorted (fun a b => a.2 ≤ b.2) out ∧
      ws.map Prod.fst = consolidate locLists := by
  obtain ⟨hperm, hsorted⟩ := hsort
  have hfst := addEndDates_map_fst _ _ hadd
  refine ⟨?_, hperm, hsorted, hfst⟩
  have h1 : out.length = ws.length := hperm.length_eq
  have h2 : ws.length = (consolidate locLists).length := by
    rw [← hfst, List.length_map]
  rw [h1, h2]
  simp [consolidate]

/-- Witness for the amended C3 at two singleton locations. -/
theorem consolidation_sorted_complete_w :
    ([(rowA, (0 : Int)), (rowB, 0)] : List (ScrapedRow × Int)).length =
        ([[rowA], [rowB]].map List.length).sum ∧
      List.Perm [(rowA, (0 : Int)), (rowB, 0)] [(rowA, 0), (rowB, 0)] ∧
      List.Sorted (fun a b => a.2 ≤ b.2) [(rowA, (0 : Int)), (rowB, 0)] ∧
      ([(rowA, (0 : Int)), (rowB, 0)]).map Prod.fst = consolidate [[rowA], [rowB]] :=
  consolidation_sorted_complete [[rowA], [rowB]] [(rowA, 0), (rowB, 0)]
    [(rowA, 0), (rowB, 0)] (by decide) ⟨List.Perm.refl _, by decide⟩

/-- C3 (counterexample): two rows tie on the derived end date; the reversed
order satisfies everything the pandas sort promises, yet it differs from
the stable order (`List.insertionSort` with the non-strict key order is the
canonical stable sort), so the code does not guarantee that items with
equal `auction_end_date` keep their original relative order. -/
theorem pandas_sort_stability_cex :
    addEndDates (consolidate [[rowA, rowB]]) = some [(rowA, (0 : Int)), (rowB, 0)] ∧
      pandasSortValues [(rowA, (0 : Int)), (rowB, 0)] [(rowB, 0), (rowA, 0)] ∧
      [(rowB, (0 : Int)), (rowA, 0)] ≠
        List.insertionSort (fun a b => a.2 ≤ b.2) [(rowA, (0 : Int)), (rowB, 0)] := by
  refine ⟨by decide, ⟨List.Perm.swap _ _ _, by decide⟩, by decide⟩

/-- C5: how `send_email` treats each outcome of the SendGrid send.  A send
failure is caught, but the handler evaluates `e.message`; when the raised
exception has no `message` attribute — the normal Python 3 case — the
handler itself raises `AttributeError`, the function propagates an
exception and the run fails, instead of logging a warning and succeeding.
Only an exception that does carry a `message` attribute is logged as the
spec describes. -/
theorem send_email_handler :
    ∀ e : PyException,
      (e.message = none →
        send_email (Except.error e) = Except.error { message := none }) ∧
      (∀ msg, e.message = some msg →
        send_email (Except.error e) = Except.ok [LogEntry.warning msg]) ∧
      send_email (Except.ok ()) =
        Except.ok [LogEntry.info (String.toList "Successful Email Sent")] := by
  intro e
  refine ⟨fun h => ?_, fun msg h => ?_, rfl⟩
  · simp [send_email, h]
  · simp [send_email, h]

/-- Unfolding `retryFrom` on a successful attempt. -/
theorem retryFrom_ok_eq {α : Type} (o : Nat → Except PyException α) (el : Nat → Nat)
    (k : Nat) (a : α) (h : o k = Except.ok a) : retryFrom o el k = (Except.ok a, k) := by
  unfold retryFrom
  rw [h]

/-- Unfolding `retryFrom` on a failed attempt with the stop condition met. -/
theorem retryFrom_stop_eq {α : Type} (o : Nat → Except PyException α) (el : Nat → Nat)
    (k : Nat) (e : PyException) (h : o k = Except.error e)
    (hs : tenacityStop k (el k) = true) : retryFrom o el k = (Except.error e, k) := by
  unfold retryFrom
  rw [h]
  simp [hs]

/-- Unfolding `retryFrom` on a failed attempt with the stop condition not
met: the loop retries. -/
theorem retryFrom_next_eq {α : Type} (o : Nat → Except PyException α) (el : Nat → Nat)
    (k : Nat) (e : PyException) (h : o k = Except.error e)
    (hs : tenacityStop k (el k) = false) : retryFrom o el k = retryFrom o el (k + 1) := by
  conv_lhs => rw [retryFrom.eq_def]
  rw [h]
  simp [hs]

/-- Full characterisation of the retry loop from attempt `k`: the final
attempt number is between `k` and `max 3 k`, the result is the outcome of
the final attempt, an error is returned only once the stop condition holds,
and every earlier attempt failed without triggering the stop condition. -/
theorem retryFrom_spec {α : Type} (o : Nat → Except PyException α) (el : Nat → Nat) :
    ∀ k : Nat,
      k ≤ (retryFrom o el k).2 ∧
        (retryFrom o el k).2 ≤ max 3 k ∧
        (retryFrom o el k).1 = o (retryFrom o el k).2 ∧
        (∀ e, (retryFrom o el k).1 = Except.error e →
          tenacityStop (retryFrom o el k).2 (el (retryFrom o el k).2) = true) ∧
        (∀ j, k ≤ j → j < (retryFrom o el k).2 →
          (∃ e, o j = Except.error e) ∧ tenacityStop j (el j) = false) := by
  suffices haux : ∀ (m k : Nat), 3 ≤ k + m →
      k ≤ (retryFrom o el k).2 ∧
        (retryFrom o el k).2 ≤ max 3 k ∧
        (retryFrom o el k).1 = o (retryFrom o el k).2 ∧
        (∀ e, (retryFrom o el k).1 = Except.error e →
          tenacityStop (retryFrom o el k).2 (el (retryFrom o el k).2) = true) ∧
        (∀ j, k ≤ j → j < (retryFrom o el k).2 →
          (∃ e, o j = Except.error e) ∧ tenacityStop j (el j) = false) by
    intro k
    exact haux 3 k (by omega)
  intro m
  induction m with
  | zero =>
    intro k hk
    have hstop : tenacityStop k (el k) = true := by
      simp only [tenacityStop, Bool.or_eq_true, decide_eq_true_eq]
      omega
    cases h1 : o k with
    | ok a =>
      rw [retryFrom_ok_eq o el k a h1]
      refine ⟨le_refl k, le_max_right 3 k, h1.symm, ?_, ?_⟩
      · intro e he
        exact absurd he (by simp)
      · intro j h2 h3
        omega
    | error e =>
      rw [retryFrom_stop_eq o el k e h1 hstop]
      refine ⟨le_refl k, le_max_right 3 k, h1.symm, ?_, ?_⟩
      · intro e' _
        exact hstop
      · intro j h2 h3
        omega
  | succ m ih =>
    intro k hk
    cases h1 : o k with
    | ok a =>
      rw [retryFrom_ok_eq o el k a h1]
      refine ⟨le_refl k, le_max_right 3 k, h1.symm, ?_, ?_⟩
      · intro e he
        exact absurd he (by simp)
      · intro j h2 h3
        omega
    | error e =>
      cases hs : tenacityStop k (el k) with
      | true =>
        rw [retryFrom_stop_eq o el k e h1 hs]
        refine ⟨le_refl k, le_max_right 3 k, h1.symm, ?_, ?_⟩
        · intro e' _
          exact hs
        · intro j h2 h3
          omega
      | false =>
        have hk3 : k < 3 := by
          by_contra hkk
          have : tenacityStop k (el k) = true := by
            simp only [tenacityStop, Bool.or_eq_true, decide_eq_true_eq]
            omega
          rw [this] at hs
          exact absurd hs (by simp)
        rw [retryFrom_next_eq o el k e h1 hs]
        obtain ⟨A, B, C, D, E⟩ := ih (k + 1) (by omega)
        refine ⟨by omega, by omega, C, D, ?_⟩
        intro j h2 h3
        rcases eq_or_lt_of_le h2 with h4 | h4
        · subst h4
          exact ⟨⟨e, h1⟩, hs⟩
        · exact E j (by omega) h3

/-- C8: both fetchers are one `retryCall` of their abstract bodies, and the
retry policy is bounded: at most 3 attempts run, an error is surfaced to
the caller only when the attempt budget or the 2-second deadline has
triggered (whichever came first — every earlier failed attempt left the
stop condition false), the propagated error is the actual outcome of the
last attempt, failing attempts exhaust into a propagated error, and a
propagated fetch failure makes the collection loop fail, so no artifact is
written. -/
theorem retry_policy_spec :
    (∀ (o : Nat → Except PyException (List (List Char))) (el : Nat → Nat),
        get_location_auctions o el = retryCall o el) ∧
    (∀ (o : Nat → Except PyException (List ScrapedRow)) (el : Nat → Nat),
        retrieve_auction_location_items o el = retryCall o el) ∧
    (∀ {α : Type} (o : Nat → Except PyException α) (el : Nat → Nat),
      (1 ≤ (retryCall o el).2 ∧ (retryCall o el).2 ≤ 3) ∧
        (∀ e, (retryCall o el).1 = Except.error e →
          o (retryCall o el).2 = Except.error e ∧
            (3 ≤ (retryCall o el).2 ∨ 2 ≤ el (retryCall o el).2)) ∧
        (∀ j, 1 ≤ j → j < (retryCall o el).2 →
          (∃ e, o j = Except.error e) ∧ tenacityStop j (el j) = false) ∧
        ((∀ k, 1 ≤ k → k ≤ 3 → ∃ e, o k = Except.error e) →
          ∃ e, (retryCall o el).1 = Except.error e)) ∧
    (∀ rs, (∃ r ∈ rs, ∃ e, r = Except.error e) →
      ∃ e, collectLoop rs = Except.error e) := by
  refine ⟨fun o el => rfl, fun o el => rfl, ?_, ?_⟩
  · intro α o el
    simp only [retryCall]
    obtain ⟨A, B, C, D, E⟩ := retryFrom_spec o el 1
    have hmax : max 3 1 = 3 := rfl
    rw [hmax] at B
    refine ⟨⟨A, B⟩, ?_, ?_, ?_⟩
    · intro e he
      have h1 : o (retryFrom o el 1).2 = Except.error e := by
        rw [← C]
        exact he
      have h2 := D e he
      simp only [tenacityStop, Bool.or_eq_true, decide_eq_true_eq] at h2
      exact ⟨h1, h2.symm⟩
    · intro j hj1 hj2
      exact E j hj1 hj2
    · intro hall
      obtain ⟨e, he⟩ := hall (retryFrom o el 1).2 A B
      refine ⟨e, ?_⟩
      rw [C, he]
  · intro rs
    induction rs with
    | nil =>
      rintro ⟨r, hr, e, rfl⟩
      cases hr
    | cons r rs ih =>
      rintro ⟨r', hr', e, rfl⟩
      rcases List.mem_cons.mp hr' with h | hmem
      · rw [← h]
        exact ⟨e, rfl⟩
      · cases r with
        | error e0 => exact ⟨e0, rfl⟩
        | ok items =>
          obtain ⟨e1, he1⟩ := ih ⟨Except.error e, hmem, e, rfl⟩
          refine ⟨e1, ?_⟩
          simp [collectLoop, he1]

/-- C9: in the trace of the collection loop, every fetch — the first and
every later one, so in particular each fetch following another — is
immediately preceded by a sleep of `rands i` seconds where `rands i` is the
i-th draw of `randint(0, 2)`, hence a randomized delay within the fixed
bounded interval 0..2 seconds. -/
theorem sleep_before_each_fetch :
    ∀ (urls : List (List Char)) (rands : Nat → Nat), (∀ j, rands j ≤ 2) →
      ∀ (i : Nat) (hi : i < urls.length),
        (collectorTrace urls rands)[2 * i]? = some (CollectorEvent.sleep (rands i)) ∧
          (collectorTrace urls rands)[2 * i + 1]? =
            some (CollectorEvent.fetch (urls.get ⟨i, hi⟩)) ∧
          rands i ≤ 2 := by
  intro urls
  induction urls with
  | nil =>
    intro rands _ i hi
    exact absurd hi (by simp)
  | cons u us ih =>
    intro rands hr i hi
    cases i with
    | zero => refine ⟨?_, ?_, hr 0⟩ <;> simp [collectorTrace]
    | succ n =>
      have hn : n < us.length := by simpa using hi
      obtain ⟨H1, H2, H3⟩ := ih (fun j => rands (j + 1)) (fun j => hr (j + 1)) n hn
      have e1 : 2 * (n + 1) = 2 * n + 1 + 1 := by ring
      have e2 : 2 * (n + 1) + 1 = 2 * n + 1 + 1 + 1 := by ring
      refine ⟨?_, ?_, hr (n + 1)⟩
      · rw [e1]
        show (CollectorEvent.sleep (rands 0) :: CollectorEvent.fetch u ::
          collectorTrace us fun j => rands (j + 1))[2 * n + 1 + 1]? =
            some (CollectorEvent.sleep (rands (n + 1)))
        rw [List.getElem?_cons_succ, List.getElem?_cons_succ]
        exact H1
      · rw [e2]
        show (CollectorEvent.sleep (rands 0) :: CollectorEvent.fetch u ::
          collectorTrace us fun j => rands (j + 1))[2 * n + 1 + 1 + 1]? =
            some (CollectorEvent.fetch ((u :: us).get ⟨n + 1, hi⟩))
        rw [List.getElem?_cons_succ, List.getElem?_cons_succ]
        exact H2

/-- Witness for C9: two locations, every draw equal to 1; the second fetch
is immediately preceded by a one-second sleep. -/
theorem sleep_before_each_fetch_w :
    (collectorTrace [['a'], ['b']] fun _ => 1)[2]? = some (CollectorEvent.sleep 1) ∧
      (collectorTrace [['a'], ['b']] fun _ => 1)[3]? = some (CollectorEvent.fetch ['b']) ∧
      (1 : Nat) ≤ 2 := by
  have h := sleep_before_each_fetch [['a'], ['b']] (fun _ => 1) (fun _ => Nat.le_succ 1) 1
    (by simp)
  simpa using h
